import Mathlib

/-!
# Verification of the LMS course/enrollment/grading core

Shallow embedding of `src/finalproject.cpp`: the `Validator` predicates, the
`Course` entity, the `LMSManager` registry, and the role-facade operations
(`Admin::addCourse`, `Admin::enrollStudent`, `Teacher::addGrade`,
`Course` mutators, `Student::viewGrades`).  C++ strings are modelled as
`List Char`; `std::vector` as `List`; a C++ member function that may throw is
modelled as a function returning the (possibly unchanged) state paired with an
optional error, since every `throw` in the source happens before any mutation
of the object unless noted otherwise.
-/

namespace LMS

/-- C++ `std::string`, modelled as its character sequence. -/
abbrev Str := List Char

/-- Error kinds thrown by the domain code.  Each constructor corresponds to one
`throw` site in the source: `validation*` constructors are
`ValidationException` with the given message, `indexOutOfRange` is
`InvalidCourseIndexException`. -/
inductive CourseError where
  /-- `ValidationException("Invalid course name")` -/
  | invalidCourseName
  /-- `ValidationException("Invalid teacher email")` -/
  | invalidTeacherEmail
  /-- `ValidationException("Invalid content")` -/
  | invalidContent
  /-- `ValidationException("Invalid student email")` -/
  | invalidStudentEmail
  /-- `ValidationException("Invalid grade")` -/
  | invalidGrade
  /-- `ValidationException("Student already enrolled")` -/
  | alreadyEnrolled
  /-- `ValidationException("Student not found")` -/
  | studentNotFound
  /-- `InvalidCourseIndexException` -/
  | indexOutOfRange
deriving DecidableEq, Repr

/-! ## Validator -/

/-- Model of `std::string::find(c)`: index of the first occurrence of `c`, `none` for
`npos`. -/
def strFind? (c : Char) : Str → Option Nat
  | [] => none
  | a :: s => if a = c then some 0 else (strFind? c s).map (· + 1)

/-- Model of `std::string::rfind(c)`: index of the last occurrence of `c`, `none` for
`npos`. -/
def strRfind? (c : Char) : Str → Option Nat
  | [] => none
  | a :: s =>
    match strRfind? c s with
    | some i => some (i + 1)
    | none => if a = c then some 0 else none

/-- Spec-side predicate: `p` is the position of the first occurrence of `c`
in `s`. -/
def isFirstOccurrence (c : Char) (s : Str) (p : Nat) : Prop :=
  s[p]? = some c ∧ ∀ i, i < p → s[i]? ≠ some c

/-- Spec-side predicate: `q` is the position of the last occurrence of `c`
in `s`. -/
def isLastOccurrence (c : Char) (s : Str) (q : Nat) : Prop :=
  s[q]? = some c ∧ ∀ j, q < j → s[j]? ≠ some c

/-- Model of `Validator::isValidEmail`: `atPos = find('@')`, `dotPos = rfind('.')`,
require both found, `atPos < dotPos`, `atPos > 0`, `dotPos < length - 1`.
(The subtraction is on `size_t`; it is only evaluated when a `'.'` was found,
so the string is nonempty and `Nat` subtraction coincides.) -/
def isValidEmail (email : Str) : Bool :=
  match strFind? '@' email, strRfind? '.' email with
  | some atPos, some dotPos =>
      decide (atPos < dotPos) && decide (0 < atPos) &&
        decide (dotPos < email.length - 1)
  | _, _ => false

/-- Model of `Validator::isValidGrade`: `grade >= 0 && grade <= 100`. -/
def isValidGrade (grade : Int) : Bool :=
  decide (0 ≤ grade ∧ grade ≤ 100)

/-- Model of `Validator::isValidIndex`: `index >= 0 && index < maxSize`. -/
def isValidIndex (index : Int) (maxSize : Nat) : Bool :=
  decide (0 ≤ index ∧ index < (maxSize : Int))

/-- Model of `Validator::isValidString`: `!str.empty() && str.length() <= 100`. -/
def isValidString (str : Str) : Bool :=
  !str.isEmpty && decide (str.length ≤ 100)

/-! ## Course -/

/-- The `Course` entity: name, owning teacher email, ordered content list,
ordered `(student email, grade)` list, ordered enrolled-student list. -/
structure Course where
  courseName : Str
  teacherEmail : Str
  contents : List Str
  grades : List (Str × Int)
  enrolledStudents : List Str
deriving DecidableEq, Repr

/-- The `Course(courseName, teacherEmail)` constructor: validates the name and
the teacher email, then initialises the three collections empty. -/
def Course.make (courseName teacherEmail : Str) : Except CourseError Course :=
  if !isValidString courseName then .error .invalidCourseName
  else if !isValidEmail teacherEmail then .error .invalidTeacherEmail
  else .ok { courseName := courseName, teacherEmail := teacherEmail,
             contents := [], grades := [], enrolledStudents := [] }

/-- Model of `Course::addContent`: validates, then `contents.push_back(content)`. -/
def Course.addContent (c : Course) (content : Str) :
    Course × Option CourseError :=
  if !isValidString content then (c, some .invalidContent)
  else ({ c with contents := c.contents ++ [content] }, none)

/-- Model of `Course::removeContent`: bound-checks the (zero-based) `int` index against
`contents.size()`, then `contents.erase(contents.begin() + index)`. -/
def Course.removeContent (c : Course) (index : Int) :
    Course × Option CourseError :=
  if !isValidIndex index c.contents.length then (c, some .indexOutOfRange)
  else ({ c with contents := c.contents.eraseIdx index.toNat }, none)

/-- Model of `Course::addGrade`: validates email then grade, then
`grades.push_back({studentEmail, grade})`.  No enrollment check here. -/
def Course.addGrade (c : Course) (studentEmail : Str) (grade : Int) :
    Course × Option CourseError :=
  if !isValidEmail studentEmail then (c, some .invalidStudentEmail)
  else if !isValidGrade grade then (c, some .invalidGrade)
  else ({ c with grades := c.grades ++ [(studentEmail, grade)] }, none)

/-- Model of `Course::enrollStudent`: validates the email, scans `enrolledStudents` for
a duplicate, then `enrolledStudents.push_back(studentEmail)`. -/
def Course.enrollStudent (c : Course) (studentEmail : Str) :
    Course × Option CourseError :=
  if !isValidEmail studentEmail then (c, some .invalidStudentEmail)
  else if c.enrolledStudents.contains studentEmail then
    (c, some .alreadyEnrolled)
  else ({ c with enrolledStudents := c.enrolledStudents ++ [studentEmail] },
        none)

/-- Model of `Course::removeStudent`: scans `enrolledStudents`, erases the first match
and returns; throws `"Student not found"` if the scan finds nothing. -/
def Course.removeStudent (c : Course) (studentEmail : Str) :
    Course × Option CourseError :=
  if c.enrolledStudents.contains studentEmail then
    ({ c with enrolledStudents := c.enrolledStudents.erase studentEmail },
     none)
  else (c, some .studentNotFound)

/-! ## Registry (`LMSManager`) -/

/-- Model of `LMSManager::addCourse`: `courses.push_back(course)` — unconditional
append, no uniqueness check at this layer. -/
def LMSManager.addCourse (courses : List Course) (course : Course) :
    List Course :=
  courses ++ [course]

/-- Model of `LMSManager::getCourse`: bound-checks the `int` index, then returns the
course at that position. -/
def LMSManager.getCourse (courses : List Course) (index : Int) :
    Except CourseError Course :=
  if !isValidIndex index courses.length then .error .indexOutOfRange
  else
    match courses[index.toNat]? with
    | some c => .ok c
    | none => .error .indexOutOfRange

/-- Model of `LMSManager::removeCourse`: bound-checks, then erases at the index. -/
def LMSManager.removeCourse (courses : List Course) (index : Int) :
    List Course × Option CourseError :=
  if !isValidIndex index courses.length then (courses, some .indexOutOfRange)
  else (courses.eraseIdx index.toNat, none)

/-! ## Users and role facades -/

/-- The three `User` subclasses. -/
inductive Role where
  | admin
  | teacher
  | student
deriving DecidableEq, Repr

/-- A `User` record: username, email, password, and which subclass it is. -/
structure UserRec where
  username : Str
  email : Str
  password : Str
  role : Role
deriving DecidableEq, Repr

/-- Outcome of `Admin::addCourse` (which reports by printing, not throwing,
except that a `Course`-constructor failure propagates uncaught). -/
inductive AdminAddCourseOutcome where
  /-- `"Error: Teacher is already assigned to another course."` -/
  | duplicateOwnership
  /-- a `ValidationException` from the `Course` constructor; there is no
  enclosing `try` in `Admin::addCourse`, so in the source this propagates to
  `main`'s fatal handler -/
  | courseError (e : CourseError)
  | success
deriving DecidableEq, Repr

/-- Model of `Admin::addCourse`: scans the registry for a course with the same teacher
email (`DuplicateOwnership`, returning before any mutation); otherwise
constructs the `Course` (which validates) and appends it through
`LMSManager::addCourse`. -/
def Admin.addCourseOp (courses : List Course) (courseName teacherEmail : Str) :
    List Course × AdminAddCourseOutcome :=
  if courses.any (fun c => c.teacherEmail == teacherEmail) then
    (courses, .duplicateOwnership)
  else
    match Course.make courseName teacherEmail with
    | .error e => (courses, .courseError e)
    | .ok c => (LMSManager.addCourse courses c, .success)

/-- Model of `studentEmail.substr(0, studentEmail.find('@'))`: everything before the
first `'@'` (the whole string when there is none, as `substr(0, npos)`). -/
def usernameFromEmail (email : Str) : Str :=
  email.takeWhile (fun ch => !(ch == '@'))

/-- The `Student` account `Admin::enrollStudent` creates:
`make_shared<Student>(usernameFromEmail, email, password)`. -/
def mkStudentAccount (email password : Str) : UserRec :=
  { username := usernameFromEmail email, email := email, password := password,
    role := .student }

/-- The state `Admin::enrollStudent` touches: the file-scope `users` vector
and the selected course. -/
structure EnrollState where
  globalUsers : List UserRec
  course : Course
deriving DecidableEq, Repr

/-- Outcome of `Admin::enrollStudent`. -/
inductive EnrollOutcome where
  /-- `"Student with this email already exists. Cannot create a duplicate
  account."` -/
  | duplicateAccount
  /-- `"Student enrolled successfully and account created."` -/
  | enrolled
  /-- an exception from `Course::enrollStudent`, caught and printed -/
  | courseError (e : CourseError)
deriving DecidableEq, Repr

/-- Model of `Admin::enrollStudent`, for one accepted email (the input loop re-prompts
until `isValidEmail` holds, so the argument is the email that passed it):
scans the file-scope `users` vector for a duplicate (returning unchanged),
otherwise creates the student account, pushes it onto `users`, and only then
calls `Course::enrollStudent` inside the surrounding `try` — an exception
there is caught after `users` has already been extended. -/
def Admin.enrollStudentOp (st : EnrollState)
    (studentEmail studentPassword : Str) : EnrollState × EnrollOutcome :=
  if st.globalUsers.any (fun u => u.email == studentEmail) then
    (st, .duplicateAccount)
  else
    let users2 :=
      st.globalUsers ++ [mkStudentAccount studentEmail studentPassword]
    match Course.enrollStudent st.course studentEmail with
    | (c2, none) => ({ globalUsers := users2, course := c2 }, .enrolled)
    | (c2, some e) =>
        ({ globalUsers := users2, course := c2 }, .courseError e)

/-- Outcome of `Teacher::addGrade`. -/
inductive GradeOutcome where
  /-- `"Student is not enrolled in this course."` -/
  | notEnrolled
  /-- `"Grade added successfully for student: ..."` -/
  | added
  /-- an exception from `Course::addGrade`, caught and printed -/
  | courseError (e : CourseError)
deriving DecidableEq, Repr

/-- Model of `Teacher::addGrade` on a selected course, for one accepted email and
grade (the email loop re-prompts until `isValidEmail`, and
`getValidatedIntInput` clamps the grade to `[0, 100]`): scans
`course.getStudents()` for the email, reporting not-enrolled and changing
nothing if absent; otherwise calls `Course::addGrade`. -/
def Teacher.addGradeOp (c : Course) (studentEmail : Str) (grade : Int) :
    Course × GradeOutcome :=
  if c.enrolledStudents.contains studentEmail then
    match Course.addGrade c studentEmail grade with
    | (c2, none) => (c2, .added)
    | (c2, some e) => (c2, .courseError e)
  else (c, .notEnrolled)

/-- The course list `Student::viewGrades` (and `viewEnrolledCourses`) builds:
the courses whose enrolled-student list contains the student's email. -/
def enrolledCoursesFor (courses : List Course) (email : Str) : List Course :=
  courses.filter (fun c => c.enrolledStudents.contains email)

/-- What `Student::viewGrades` reports. -/
inductive GradeQueryResult where
  /-- `"You are not enrolled in any courses."` -/
  | notEnrolledAnywhere
  /-- the student entered `0` to go back -/
  | back
  /-- `"Your Grade in <course>: <g>%"` — the first grade entry whose email
  matches -/
  | grade (courseName : Str) (g : Int)
  /-- `"No grade available for this course."` -/
  | noGradeYet
deriving DecidableEq, Repr

/-- Model of `Student::viewGrades`: filters to the courses the student is enrolled in;
reports not-enrolled if that list is empty; otherwise takes a one-based
selection `index` (validated to `[0, size]` by `getValidatedIntInput`; `0`
goes back) and reports the first matching grade entry of the selected course,
or no-grade-yet if none matches. -/
def Student.viewGradesOp (courses : List Course) (email : Str)
    (index : Nat) : GradeQueryResult :=
  let enrolled := enrolledCoursesFor courses email
  if enrolled.isEmpty then .notEnrolledAnywhere
  else if index = 0 then .back
  else
    match enrolled[index - 1]? with
    | none => .back
    | some c =>
      match c.grades.find? (fun g => g.1 == email) with
      | some g => .grade c.courseName g.2
      | none => .noGradeYet

/-- One course per instructor email: pairwise distinct owners across the
registry. -/
def uniqueOwnership (courses : List Course) : Prop :=
  courses.Pairwise (fun a b => a.teacherEmail ≠ b.teacherEmail)

/-- Reachability invariant of a course: every entry of the enrolled list
passed `isValidEmail` (the only writer, `Course::enrollStudent`, validates
before inserting). -/
def enrolledValid (c : Course) : Prop :=
  ∀ e ∈ c.enrolledStudents, isValidEmail e = true

/-! ## Concrete data: the seed of `main`, and the §8 scenario -/

/-- The accounts `main` seeds.  `main` declares a local
`vector<shared_ptr<User>> users`, which shadows the file-scope `users`
vector; the seeded accounts therefore live only in `main`'s local. -/
def seededMainUsers : List UserRec :=
  [ { username := "admin1".toList, email := "admin1@example.com".toList,
      password := "adminpass".toList, role := .admin },
    { username := "teacher1".toList, email := "teacher1@example.com".toList,
      password := "teacherpass".toList, role := .teacher },
    { username := "teacher2".toList, email := "teacher2@example.com".toList,
      password := "teacherpass".toList, role := .teacher } ]

/-- The file-scope `users` vector after `main`'s seeding: still empty,
because the seeding wrote to the shadowing local vector. -/
def initialGlobalUsers : List UserRec := []

/-- Seed course `course1` of `main`: `"Mathematics"` owned by
`teacher1@example.com`, with two content items. -/
def course1 : Course :=
  { courseName := "Mathematics".toList,
    teacherEmail := "teacher1@example.com".toList,
    contents := ["Introduction to Algebra".toList,
                 "Advanced Calculus".toList],
    grades := [], enrolledStudents := [] }

def t1Email : Str := "t1@example.com".toList

def s1Email : Str := "s1@example.com".toList

/-- Scenario of §8, step 1: the `"Mathematics"` course owned by
`t1@example.com`, fresh from the constructor. -/
def mathCourse0 : Course :=
  { courseName := "Mathematics".toList, teacherEmail := t1Email,
    contents := [], grades := [], enrolledStudents := [] }

/-- Scenario of §8, step 2: `s1@example.com` enrolled. -/
def mathAfterEnroll : Course := (Course.enrollStudent mathCourse0 s1Email).1

/-- Scenario of §8, step 3: the instructor grades `s1@example.com` with 87. -/
def mathAfterGrade : Course := (Teacher.addGradeOp mathAfterEnroll s1Email 87).1

/-- Scenario of §8, step 4: `s1@example.com` removed from the course. -/
def mathAfterRemove : Course := (Course.removeStudent mathAfterGrade s1Email).1

end LMS

namespace LMS

/-! ## Characterisation of `find` and `rfind` -/

theorem strFind_eq_some_iff (c : Char) (s : Str) :
    ∀ p, strFind? c s = some p ↔ isFirstOccurrence c s p := by
  induction s with
  | nil => intro p; simp [strFind?, isFirstOccurrence]
  | cons a s ih =>
    intro p
    constructor
    · intro h
      by_cases hac : a = c
      · have hp : p = 0 := by simp [strFind?, hac] at h; omega
        subst hp
        exact ⟨by simp [hac], fun i hi => absurd hi (by omega)⟩
      · simp only [strFind?, if_neg hac, Option.map_eq_some'] at h
        obtain ⟨p', hp', rfl⟩ := h
        obtain ⟨h1, h2⟩ := (ih p').mp hp'
        refine ⟨by simpa using h1, ?_⟩
        intro i hi
        cases i with
        | zero => simpa using hac
        | succ i =>
          simpa using h2 i (by omega)
    · rintro ⟨h1, h2⟩
      by_cases hac : a = c
      · have hp : p = 0 := by
          by_contra hp0
          exact h2 0 (Nat.pos_of_ne_zero hp0) (by simp [hac])
        subst hp
        simp [strFind?, hac]
      · cases p with
        | zero => exact absurd (by simpa using h1) hac
        | succ p =>
          have hs : strFind? c s = some p := by
            refine (ih p).mpr ⟨by simpa using h1, fun i hi => ?_⟩
            simpa using h2 (i + 1) (by omega)
          simp [strFind?, hac, hs]

theorem strRfind_getElem (c : Char) (s : Str) :
    ∀ q, strRfind? c s = some q → s[q]? = some c := by
  induction s with
  | nil => intro q h; simp [strRfind?] at h
  | cons a s ih =>
    intro q h
    simp only [strRfind?] at h
    cases hs : strRfind? c s with
    | some i =>
      rw [hs] at h
      obtain rfl : i + 1 = q := by simpa using h
      simpa using ih i hs
    | none =>
      rw [hs] at h
      by_cases hac : a = c
      · rw [if_pos hac] at h
        obtain rfl : 0 = q := by simpa using h
        simp [hac]
      · rw [if_neg hac] at h
        cases h

theorem strRfind_eq_none_iff (c : Char) (s : Str) :
    strRfind? c s = none ↔ ∀ i : Nat, s[i]? ≠ some c := by
  induction s with
  | nil => simp [strRfind?]
  | cons a s ih =>
    simp only [strRfind?]
    cases hs : strRfind? c s with
    | some i =>
      simp only [reduceCtorEq, false_iff, not_forall]
      refine ⟨i + 1, by simpa using strRfind_getElem c s i hs⟩
    | none =>
      by_cases hac : a = c
      · simp only [if_pos hac, reduceCtorEq, false_iff, not_forall]
        exact ⟨0, by simp [hac]⟩
      · simp only [if_neg hac]
        constructor
        · intro _ i
          cases i with
          | zero => simpa using hac
          | succ i => simpa using (ih.mp hs) i
        · intro _; trivial

theorem strRfind_eq_some_iff (c : Char) (s : Str) :
    ∀ q, strRfind? c s = some q ↔ isLastOccurrence c s q := by
  induction s with
  | nil => intro q; simp [strRfind?, isLastOccurrence]
  | cons a s ih =>
    intro q
    constructor
    · intro h
      simp only [strRfind?] at h
      cases hs : strRfind? c s with
      | some i =>
        rw [hs] at h
        obtain rfl : i + 1 = q := by simpa using h
        obtain ⟨h1, h2⟩ := (ih i).mp hs
        refine ⟨by simpa using h1, ?_⟩
        intro j hj
        cases j with
        | zero => omega
        | succ j => simpa using h2 j (by omega)
      | none =>
        rw [hs] at h
        by_cases hac : a = c
        · rw [if_pos hac] at h
          obtain rfl : 0 = q := by simpa using h
          refine ⟨by simp [hac], ?_⟩
          intro j hj
          cases j with
          | zero => omega
          | succ j => simpa using (strRfind_eq_none_iff c s).mp hs j
        · rw [if_neg hac] at h
          cases h
    · rintro ⟨h1, h2⟩
      cases q with
      | zero =>
        have hac : a = c := by simpa using h1
        have hnone : strRfind? c s = none := by
          refine (strRfind_eq_none_iff c s).mpr fun i => ?_
          simpa using h2 (i + 1) (by omega)
        simp [strRfind?, hnone, hac]
      | succ q =>
        have hs : strRfind? c s = some q := by
          refine (ih q).mpr ⟨by simpa using h1, fun j hj => ?_⟩
          simpa using h2 (j + 1) (by omega)
        simp [strRfind?, hs]

/-- Claim C8: `isValidEmail s` returns `true` iff the first `'@'` of `s` is at
a position `p > 0`, the last `'.'` of `s` is at a position `q` with `p < q`,
and `q` is not the last position of `s` (there is at least one character
after it). -/
theorem isValidEmail_iff (s : Str) :
    isValidEmail s = true ↔
      ∃ p q : Nat, isFirstOccurrence '@' s p ∧ isLastOccurrence '.' s q ∧
        0 < p ∧ p < q ∧ q + 1 < s.length := by
  unfold isValidEmail
  cases hf : strFind? '@' s with
  | none =>
    simp only [Bool.false_eq_true, false_iff]
    rintro ⟨p, q, h1, -, -⟩
    have e1 := (strFind_eq_some_iff '@' s p).mpr h1
    rw [hf] at e1
    cases e1
  | some atPos =>
    cases hr : strRfind? '.' s with
    | none =>
      simp only [Bool.false_eq_true, false_iff]
      rintro ⟨p, q, -, h2, -⟩
      have e2 := (strRfind_eq_some_iff '.' s q).mpr h2
      rw [hr] at e2
      cases e2
    | some dotPos =>
      simp only [Bool.and_eq_true, decide_eq_true_eq]
      constructor
      · rintro ⟨⟨hlt, hpos⟩, hdot⟩
        have h1 := (strFind_eq_some_iff '@' s atPos).mp hf
        have h2 := (strRfind_eq_some_iff '.' s dotPos).mp hr
        have hq : dotPos < s.length := by
          obtain ⟨h, -⟩ := List.getElem?_eq_some.mp h2.1
          exact h
        exact ⟨atPos, dotPos, h1, h2, hpos, hlt, by omega⟩
      · rintro ⟨p, q, h1, h2, hp, hpq, hq⟩
        have e1 := (strFind_eq_some_iff '@' s p).mpr h1
        have e2 := (strRfind_eq_some_iff '.' s q).mpr h2
        rw [hf] at e1
        rw [hr] at e2
        obtain rfl : atPos = p := by simpa using e1
        obtain rfl : dotPos = q := by simpa using e2
        exact ⟨⟨hpq, hp⟩, by omega⟩

/-! ## `eraseIdx` shifting lemmas -/

theorem getElem?_eraseIdx_of_lt {α : Type} (l : List α) (i j : Nat)
    (hj : j < i) : (l.eraseIdx i)[j]? = l[j]? := by
  induction l generalizing i j with
  | nil => simp [List.eraseIdx]
  | cons a l ih =>
    cases i with
    | zero => omega
    | succ i =>
      cases j with
      | zero => simp [List.eraseIdx]
      | succ j =>
        simp only [List.eraseIdx, List.getElem?_cons_succ]
        exact ih i j (by omega)

theorem getElem?_eraseIdx_of_le {α : Type} (l : List α) (i j : Nat)
    (hij : i ≤ j) : (l.eraseIdx i)[j]? = l[j + 1]? := by
  induction l generalizing i j with
  | nil => simp [List.eraseIdx]
  | cons a l ih =>
    cases i with
    | zero => simp [List.eraseIdx]
    | succ i =>
      cases j with
      | zero => omega
      | succ j =>
        simp only [List.eraseIdx, List.getElem?_cons_succ]
        exact ih i j (by omega)

/-! ## Helper lemmas on the course operations -/

theorem contains_eq_true_of_mem (l : List Str) (e : Str) (h : e ∈ l) :
    l.contains e = true :=
  List.elem_iff.mpr h

theorem contains_eq_false_of_not_mem (l : List Str) (e : Str) (h : e ∉ l) :
    l.contains e = false :=
  Bool.eq_false_iff.mpr fun hc => h (List.elem_iff.mp hc)

theorem not_mem_erase_self {α : Type} [BEq α] [LawfulBEq α] (l : List α)
    (a : α) (hnd : l.Nodup) : a ∉ l.erase a := by
  induction l with
  | nil => simp
  | cons b l ih =>
    rw [List.nodup_cons] at hnd
    rw [List.erase_cons]
    by_cases hba : b = a
    · subst hba
      simpa using hnd.1
    · have hba' : (b == a) = false := by simpa using hba
      rw [hba', if_neg (by simp)]
      simp only [List.mem_cons, not_or]
      exact ⟨fun h => hba h.symm, ih hnd.2⟩

theorem enrollStudent_of_mem (c : Course) (e : Str)
    (hv : isValidEmail e = true) (he : e ∈ c.enrolledStudents) :
    Course.enrollStudent c e = (c, some .alreadyEnrolled) := by
  simp [Course.enrollStudent, hv, he]

theorem enrollStudent_of_not_mem (c : Course) (e : Str)
    (hv : isValidEmail e = true) (he : e ∉ c.enrolledStudents) :
    Course.enrollStudent c e =
      ({ c with enrolledStudents := c.enrolledStudents ++ [e] }, none) := by
  simp [Course.enrollStudent, hv, he]

theorem addGrade_ok (c : Course) (e : Str) (g : Int)
    (hv : isValidEmail e = true) (h0 : 0 ≤ g) (h100 : g ≤ 100) :
    Course.addGrade c e g = ({ c with grades := c.grades ++ [(e, g)] }, none) := by
  have hg : isValidGrade g = true := by
    simp only [isValidGrade, decide_eq_true_eq]
    exact ⟨h0, h100⟩
  simp [Course.addGrade, hv, hg]

theorem removeStudent_of_mem (c : Course) (e : Str)
    (he : e ∈ c.enrolledStudents) :
    Course.removeStudent c e =
      ({ c with enrolledStudents := c.enrolledStudents.erase e }, none) := by
  simp [Course.removeStudent, he]

theorem removeStudent_of_not_mem (c : Course) (e : Str)
    (he : e ∉ c.enrolledStudents) :
    Course.removeStudent c e = (c, some .studentNotFound) := by
  simp [Course.removeStudent, he]

/-! ## Reachability invariants of the enrolled list

Every reachable course state has only validated, duplicate-free entries in
its enrolled list: the constructor starts it empty, `enrollStudent` is the
only writer and validates and deduplicates, `removeStudent` only erases.
These lemmas justify reading the claims over such states. -/

theorem enrolledValid_make (name t : Str) (c : Course)
    (h : Course.make name t = .ok c) : enrolledValid c := by
  unfold Course.make at h
  split at h
  · cases h
  · split at h
    · cases h
    · injection h with h
      subst h
      intro e he
      exact absurd he (List.not_mem_nil e)

theorem enrolledValid_enrollStudent (c : Course) (e : Str)
    (h : enrolledValid c) : enrolledValid (Course.enrollStudent c e).1 := by
  by_cases hv : isValidEmail e = true
  · by_cases he : e ∈ c.enrolledStudents
    · rw [enrollStudent_of_mem c e hv he]
      exact h
    · rw [enrollStudent_of_not_mem c e hv he]
      intro x hx
      rcases List.mem_append.mp hx with hx | hx
      · exact h x hx
      · obtain rfl : x = e := by simpa using hx
        exact hv
  · have hv' : isValidEmail e = false := Bool.eq_false_iff.mpr hv
    have heq : Course.enrollStudent c e = (c, some .invalidStudentEmail) := by
      simp [Course.enrollStudent, hv']
    rw [heq]
    exact h

theorem enrolledValid_removeStudent (c : Course) (e : Str)
    (h : enrolledValid c) : enrolledValid (Course.removeStudent c e).1 := by
  by_cases he : e ∈ c.enrolledStudents
  · rw [removeStudent_of_mem c e he]
    intro x hx
    exact h x (List.mem_of_mem_erase hx)
  · rw [removeStudent_of_not_mem c e he]
    exact h

theorem enrolledNodup_make (name t : Str) (c : Course)
    (h : Course.make name t = .ok c) : c.enrolledStudents.Nodup := by
  unfold Course.make at h
  split at h
  · cases h
  · split at h
    · cases h
    · injection h with h
      subst h
      exact List.nodup_nil

theorem enrolledNodup_enrollStudent (c : Course) (e : Str)
    (h : c.enrolledStudents.Nodup) :
    ((Course.enrollStudent c e).1).enrolledStudents.Nodup := by
  by_cases hv : isValidEmail e = true
  · by_cases he : e ∈ c.enrolledStudents
    · rw [enrollStudent_of_mem c e hv he]
      exact h
    · rw [enrollStudent_of_not_mem c e hv he]
      show (c.enrolledStudents ++ [e]).Nodup
      rw [List.nodup_append]
      exact ⟨h, List.nodup_singleton e, by simpa [List.disjoint_singleton] using he⟩
  · have hv' : isValidEmail e = false := Bool.eq_false_iff.mpr hv
    have heq : Course.enrollStudent c e = (c, some .invalidStudentEmail) := by
      simp [Course.enrollStudent, hv']
    rw [heq]
    exact h

theorem enrolledNodup_removeStudent (c : Course) (e : Str)
    (h : c.enrolledStudents.Nodup) :
    ((Course.removeStudent c e).1).enrolledStudents.Nodup := by
  by_cases he : e ∈ c.enrolledStudents
  · rw [removeStudent_of_mem c e he]
    show (c.enrolledStudents.erase e).Nodup
    exact (List.erase_sublist e c.enrolledStudents).nodup h
  · rw [removeStudent_of_not_mem c e he]
    exact h

/-! ## Claim theorems on the `Course` operations -/

/-- Claim C2: `Course::enrollStudent` — for a (well-formed) email already in the
enrolled set, a second call fails with already-enrolled and returns the
course exactly as it was; for a well-formed email not yet present it appends
the email at the end of the enrolled list, preserving the insertion order of
the earlier entries. -/
theorem course_enrollStudent_spec (c : Course) (e : Str) :
    (isValidEmail e = true → e ∈ c.enrolledStudents →
      Course.enrollStudent c e = (c, some .alreadyEnrolled)) ∧
    (isValidEmail e = true → e ∉ c.enrolledStudents →
      Course.enrollStudent c e =
        ({ c with enrolledStudents := c.enrolledStudents ++ [e] }, none)) :=
  ⟨fun hv he => enrollStudent_of_mem c e hv he,
   fun hv he => enrollStudent_of_not_mem c e hv he⟩

/-- Claim C4: `Course::addGrade` — for every course, valid email and grade in
`[0, 100]`, the call succeeds and the grade list is the old list with the
pair appended at the end; grading the same email twice appends a second
entry (append, not overwrite). -/
theorem course_addGrade_appends (c : Course) (e : Str) (g g2 : Int)
    (hv : isValidEmail e = true) (h0 : 0 ≤ g) (h100 : g ≤ 100)
    (h0' : 0 ≤ g2) (h100' : g2 ≤ 100) :
    Course.addGrade c e g = ({ c with grades := c.grades ++ [(e, g)] }, none) ∧
    ((Course.addGrade (Course.addGrade c e g).1 e g2).1).grades =
      c.grades ++ [(e, g), (e, g2)] := by
  have h1 := addGrade_ok c e g hv h0 h100
  refine ⟨h1, ?_⟩
  rw [h1]
  rw [addGrade_ok _ e g2 hv h0' h100']
  simp

/-- Claim C5: `Course::removeContent` with zero-based index `i`: out of
`[0, size)` it fails with index-out-of-range and returns the course (all
state) unchanged; in range it erases position `i`, the content list shrinks
by one, positions below `i` are untouched and every later element moves
exactly one position down. -/
theorem course_removeContent_spec (c : Course) (i : Int) :
    (isValidIndex i c.contents.length = false →
      Course.removeContent c i = (c, some .indexOutOfRange)) ∧
    (0 ≤ i → i < (c.contents.length : Int) →
      Course.removeContent c i =
        ({ c with contents := c.contents.eraseIdx i.toNat }, none) ∧
      ((Course.removeContent c i).1).contents.length =
        c.contents.length - 1 ∧
      (∀ j : Nat, j < i.toNat →
        ((Course.removeContent c i).1).contents[j]? = c.contents[j]?) ∧
      (∀ j : Nat, i.toNat ≤ j →
        ((Course.removeContent c i).1).contents[j]? = c.contents[j + 1]?)) := by
  constructor
  · intro h
    simp [Course.removeContent, h]
  · intro h0 hlt
    have hvalid : isValidIndex i c.contents.length = true := by
      simp only [isValidIndex, decide_eq_true_eq]
      exact ⟨h0, hlt⟩
    have heq : Course.removeContent c i =
        ({ c with contents := c.contents.eraseIdx i.toNat }, none) := by
      simp [Course.removeContent, hvalid]
    have hi : i.toNat < c.contents.length := by omega
    refine ⟨heq, ?_, ?_, ?_⟩
    · rw [heq]
      have := List.length_eraseIdx_add_one hi
      simpa using by omega
    · intro j hj
      rw [heq]
      exact getElem?_eraseIdx_of_lt c.contents i.toNat j hj
    · intro j hj
      rw [heq]
      exact getElem?_eraseIdx_of_le c.contents i.toNat j hj

/-- Claim C6: `Course::removeStudent` — an absent email fails with
student-not-found and the course is returned unchanged; a present email is
erased from the enrolled list (and, if the list is duplicate-free as every
reachable course state is, the email is no longer a member).  In both cases
the grade list is exactly the one from before the call, so every previously
recorded `(student, grade)` pair — including the departed student's — is
still there. -/
theorem course_removeStudent_spec (c : Course) (e : Str) :
    (e ∉ c.enrolledStudents →
      Course.removeStudent c e = (c, some .studentNotFound)) ∧
    (e ∈ c.enrolledStudents →
      Course.removeStudent c e =
        ({ c with enrolledStudents := c.enrolledStudents.erase e }, none)) ∧
    ((Course.removeStudent c e).1).grades = c.grades ∧
    (e ∈ c.enrolledStudents → c.enrolledStudents.Nodup →
      e ∉ ((Course.removeStudent c e).1).enrolledStudents) := by
  refine ⟨fun he => removeStudent_of_not_mem c e he,
          fun he => removeStudent_of_mem c e he, ?_, ?_⟩
  · by_cases he : e ∈ c.enrolledStudents
    · rw [removeStudent_of_mem c e he]
    · rw [removeStudent_of_not_mem c e he]
  · intro he hnd
    rw [removeStudent_of_mem c e he]
    exact not_mem_erase_self c.enrolledStudents e hnd

/-! ## Claim theorems on the role facades -/

theorem course_make_ok_teacherEmail (name t : Str) (c : Course)
    (h : Course.make name t = .ok c) : c.teacherEmail = t := by
  unfold Course.make at h
  split at h
  · cases h
  · split at h
    · cases h
    · injection h with h
      subst h
      rfl

/-- Claim C1: `Admin::addCourse` — if some course owned by teacher email `t`
already exists, creating another course owned by `t` fails with
duplicate-ownership and the registry's course list is returned exactly as it
was.  `LMSManager::addCourse` itself appends unconditionally — no uniqueness
check at the registry layer — yet at-most-one-course-per-teacher, once true,
stays true across the Admin facade's create operation. -/
theorem admin_addCourse_spec (courses : List Course) (name t : Str) :
    ((∃ c ∈ courses, c.teacherEmail = t) →
      Admin.addCourseOp courses name t = (courses, .duplicateOwnership)) ∧
    (∀ c : Course, LMSManager.addCourse courses c = courses ++ [c]) ∧
    (uniqueOwnership courses →
      uniqueOwnership (Admin.addCourseOp courses name t).1) := by
  refine ⟨?_, fun c => rfl, ?_⟩
  · rintro ⟨c, hc, hct⟩
    have hany : courses.any (fun c => c.teacherEmail == t) = true :=
      List.any_eq_true.mpr ⟨c, hc, by simpa using hct⟩
    simp [Admin.addCourseOp, hany]
  · intro hu
    unfold Admin.addCourseOp
    cases hany : courses.any (fun c => c.teacherEmail == t) with
    | true => simpa [hany] using hu
    | false =>
      cases hmk : Course.make name t with
      | error e => simpa [hany, hmk] using hu
      | ok c =>
        simp only [hany, Bool.false_eq_true, if_false, hmk]
        unfold uniqueOwnership LMSManager.addCourse
        rw [List.pairwise_append]
        refine ⟨hu, List.pairwise_singleton _ _, ?_⟩
        intro a ha b hb
        have hbc : b = c := by simpa using hb
        rw [hbc, course_make_ok_teacherEmail name t c hmk]
        intro heq
        have hatrue : courses.any (fun c => c.teacherEmail == t) = true :=
          List.any_eq_true.mpr ⟨a, ha, by simpa using heq⟩
        rw [hany] at hatrue
        cases hatrue

/-- Claim C3: `Teacher::addGrade` — the facade records a grade only for an
enrolled student — for an email not in the enrolled set it reports
not-enrolled and returns the course (in particular its grade list)
unchanged; for an enrolled, well-formed email and a grade in `[0, 100]` it
appends the pair.  `Course::addGrade` itself performs no enrollment check:
it appends for any well-formed email and in-range grade, enrolled or not. -/
theorem teacher_addGrade_spec (c : Course) (e : Str) (g : Int) :
    (e ∉ c.enrolledStudents →
      Teacher.addGradeOp c e g = (c, .notEnrolled)) ∧
    (isValidEmail e = true → 0 ≤ g → g ≤ 100 → e ∈ c.enrolledStudents →
      Teacher.addGradeOp c e g =
        ({ c with grades := c.grades ++ [(e, g)] }, .added)) ∧
    (isValidEmail e = true → 0 ≤ g → g ≤ 100 →
      Course.addGrade c e g =
        ({ c with grades := c.grades ++ [(e, g)] }, none)) := by
  refine ⟨?_, ?_, fun hv h0 h100 => addGrade_ok c e g hv h0 h100⟩
  · intro he
    simp [Teacher.addGradeOp, he]
  · intro hv h0 h100 he
    have hok := addGrade_ok c e g hv h0 h100
    simp [Teacher.addGradeOp, he, hok]

/-- Claim C10 (implicit): `Admin::enrollStudent` is not atomic on error: when the email
has no account in the file-scope users list but is already enrolled in the
selected course, the newly created student account is pushed onto the users
list *before* `Course::enrollStudent` throws already-enrolled, so the
operation reports failure while the user-account state has changed. -/
theorem admin_enrollStudent_not_atomic (users : List UserRec) (c : Course)
    (e pw : Str) (hu : ∀ u ∈ users, u.email ≠ e)
    (hv : isValidEmail e = true) (he : e ∈ c.enrolledStudents) :
    Admin.enrollStudentOp ⟨users, c⟩ e pw =
      (⟨users ++ [mkStudentAccount e pw], c⟩,
       .courseError .alreadyEnrolled) ∧
    (Admin.enrollStudentOp ⟨users, c⟩ e pw).1.globalUsers ≠ users := by
  have hany : users.any (fun u => u.email == e) = false := by
    rw [Bool.eq_false_iff]
    intro hc
    obtain ⟨u, hu', hbeq⟩ := List.any_eq_true.mp hc
    exact hu u hu' (by simpa using hbeq)
  have henroll := enrollStudent_of_mem c e hv he
  have hmain : Admin.enrollStudentOp ⟨users, c⟩ e pw =
      (⟨users ++ [mkStudentAccount e pw], c⟩,
       .courseError .alreadyEnrolled) := by
    simp [Admin.enrollStudentOp, hany, henroll]
  refine ⟨hmain, ?_⟩
  rw [hmain]
  show users ++ [mkStudentAccount e pw] ≠ users
  intro hcontra
  have hlen := congrArg List.length hcontra
  rw [List.length_append] at hlen
  simp at hlen

/-! ## Claim theorems on concrete program states -/

/-- Claim C9, code-bug evaluation: the seeded `teacher1@example.com` account exists (in
`main`'s shadowing local `users` vector), yet `Admin::enrollStudent` with
that very email is *not* rejected as a duplicate: its existence check reads
the file-scope `users` vector, which `main`'s seeding never touched and
which is still empty, so the operation creates a second account with the
seeded email and enrolls it. -/
theorem admin_enrollStudent_seeded_duplicate_accepted :
    seededMainUsers.any
        (fun u => u.email == "teacher1@example.com".toList) = true ∧
    Admin.enrollStudentOp ⟨initialGlobalUsers, course1⟩
        "teacher1@example.com".toList "pw".toList =
      (⟨[mkStudentAccount "teacher1@example.com".toList "pw".toList],
        { course1 with
            enrolledStudents := ["teacher1@example.com".toList] }⟩,
       .enrolled) := by
  decide

/-- Claim C7, counterexample: in the scenario of §8 (enroll `s1@example.com` in
`"Mathematics"`, grade 87, then remove the student), the learner's grade
query *before* removal returns the grade, but *after* removal it reports
"not enrolled in any courses" — the course no longer appears in the
learner's course list at all — and in particular does **not** report
no-grade-yet for that course. -/
theorem viewGrades_after_removal_counterexample :
    Student.viewGradesOp [mathAfterGrade] s1Email 1 =
      .grade "Mathematics".toList 87 ∧
    Student.viewGradesOp [mathAfterRemove] s1Email 1 =
      .notEnrolledAnywhere ∧
    Student.viewGradesOp [mathAfterRemove] s1Email 1 ≠ .noGradeYet := by
  decide

/-- Claim C7, amended: in the scenario of §8, while enrolled and ungraded the
learner's query reports no-grade-yet; after the instructor grades 87 it
returns exactly the grade 87 for `"Mathematics"`; after the student is
removed from the course, the course stops appearing in the learner's
enrolled list, so the query reports not-enrolled rather than
no-grade-yet. -/
theorem viewGrades_scenario :
    Student.viewGradesOp [mathAfterEnroll] s1Email 1 = .noGradeYet ∧
    Student.viewGradesOp [mathAfterGrade] s1Email 1 =
      .grade "Mathematics".toList 87 ∧
    Student.viewGradesOp [mathAfterRemove] s1Email 1 =
      .notEnrolledAnywhere := by
  decide

/-! ## Witnesses: the claim theorems applied at concrete inputs -/

theorem course_enrollStudent_spec_witness :
    Course.enrollStudent mathAfterEnroll s1Email =
      (mathAfterEnroll, some .alreadyEnrolled) ∧
    Course.enrollStudent mathCourse0 s1Email =
      ({ mathCourse0 with
          enrolledStudents := mathCourse0.enrolledStudents ++ [s1Email] },
       none) :=
  ⟨(course_enrollStudent_spec mathAfterEnroll s1Email).1 (by decide)
     (by decide),
   (course_enrollStudent_spec mathCourse0 s1Email).2 (by decide) (by decide)⟩

theorem course_addGrade_appends_witness :
    Course.addGrade mathCourse0 s1Email 87 =
      ({ mathCourse0 with grades := mathCourse0.grades ++ [(s1Email, 87)] },
       none) ∧
    ((Course.addGrade (Course.addGrade mathCourse0 s1Email 87).1
        s1Email 92).1).grades =
      mathCourse0.grades ++ [(s1Email, 87), (s1Email, 92)] :=
  course_addGrade_appends mathCourse0 s1Email 87 92 (by decide) (by decide)
    (by decide) (by decide) (by decide)

theorem course_removeContent_spec_witness :
    Course.removeContent course1 5 = (course1, some .indexOutOfRange) ∧
    Course.removeContent course1 0 =
      ({ course1 with contents := course1.contents.eraseIdx (0 : Int).toNat },
       none) :=
  ⟨(course_removeContent_spec course1 5).1 (by decide),
   ((course_removeContent_spec course1 0).2 (by decide) (by decide)).1⟩

theorem course_removeStudent_spec_witness :
    Course.removeStudent mathCourse0 s1Email =
      (mathCourse0, some .studentNotFound) ∧
    Course.removeStudent mathAfterGrade s1Email =
      ({ mathAfterGrade with
          enrolledStudents := mathAfterGrade.enrolledStudents.erase s1Email },
       none) ∧
    ((Course.removeStudent mathAfterGrade s1Email).1).grades =
      mathAfterGrade.grades ∧
    s1Email ∉
      ((Course.removeStudent mathAfterGrade s1Email).1).enrolledStudents :=
  ⟨(course_removeStudent_spec mathCourse0 s1Email).1 (by decide),
   (course_removeStudent_spec mathAfterGrade s1Email).2.1 (by decide),
   (course_removeStudent_spec mathAfterGrade s1Email).2.2.1,
   (course_removeStudent_spec mathAfterGrade s1Email).2.2.2 (by decide)
     (by decide)⟩

theorem admin_addCourse_spec_witness :
    Admin.addCourseOp [mathCourse0] "Physics".toList t1Email =
      ([mathCourse0], .duplicateOwnership) ∧
    LMSManager.addCourse [mathCourse0] course1 = [mathCourse0] ++ [course1] ∧
    uniqueOwnership
      (Admin.addCourseOp [mathCourse0] "Physics".toList t1Email).1 :=
  ⟨(admin_addCourse_spec [mathCourse0] "Physics".toList t1Email).1
     ⟨mathCourse0, by decide, by decide⟩,
   (admin_addCourse_spec [mathCourse0] "Physics".toList t1Email).2.1 course1,
   (admin_addCourse_spec [mathCourse0] "Physics".toList t1Email).2.2
     (by simp [uniqueOwnership])⟩

theorem teacher_addGrade_spec_witness :
    Teacher.addGradeOp mathCourse0 s1Email 87 = (mathCourse0, .notEnrolled) ∧
    Teacher.addGradeOp mathAfterEnroll s1Email 87 =
      ({ mathAfterEnroll with
          grades := mathAfterEnroll.grades ++ [(s1Email, 87)] }, .added) ∧
    Course.addGrade mathCourse0 s1Email 87 =
      ({ mathCourse0 with grades := mathCourse0.grades ++ [(s1Email, 87)] },
       none) :=
  ⟨(teacher_addGrade_spec mathCourse0 s1Email 87).1 (by decide),
   (teacher_addGrade_spec mathAfterEnroll s1Email 87).2.1 (by decide)
     (by decide) (by decide) (by decide),
   (teacher_addGrade_spec mathCourse0 s1Email 87).2.2 (by decide) (by decide)
     (by decide)⟩

theorem admin_enrollStudent_not_atomic_witness :
    Admin.enrollStudentOp ⟨[], mathAfterEnroll⟩ s1Email "pw".toList =
      (⟨[] ++ [mkStudentAccount s1Email "pw".toList], mathAfterEnroll⟩,
       .courseError .alreadyEnrolled) ∧
    (Admin.enrollStudentOp ⟨[], mathAfterEnroll⟩ s1Email
        "pw".toList).1.globalUsers ≠ [] :=
  admin_enrollStudent_not_atomic [] mathAfterEnroll s1Email "pw".toList
    (by simp) (by decide) (by decide)

theorem isValidEmail_iff_witness :
    isValidEmail "a@b.c".toList = true ↔
      ∃ p q : Nat, isFirstOccurrence '@' "a@b.c".toList p ∧
        isLastOccurrence '.' "a@b.c".toList q ∧
        0 < p ∧ p < q ∧ q + 1 < "a@b.c".toList.length :=
  isValidEmail_iff "a@b.c".toList

end LMS
